import Mathlib

/-
  Verification development for the `gitu` tool (src/gitu/main.go of oxyuan/gobin).

  The tool walks a directory tree, finds git repositories (directories that
  directly contain a `.git` subdirectory), runs four policy checks on each
  repository, and pulls the repository when all four checks pass.  Results are
  aggregated into five categorized name lists and printed at the end.

  The embedding below translates the relevant parts of main.go into Lean:
  subprocess results are abstracted into an environment mapping a concrete
  git invocation (argv plus timeout) to its outcome, and the per-repository
  processing loop, the directory walk, and the bounded worker-pool discipline
  are modelled as executable functions / an explicit step relation.
-/

/-! ## Subprocess invocations (executeGitCommand, gitPull)

`executeGitCommand` (main.go:184-198) runs `git -C <repoPath> <args...>` under a
`context.WithTimeout` of 10 seconds; `gitPull` (main.go:163-182) runs
`git -C <repoPath> pull` via `exec.Command` with no context and no timeout. -/

structure GitInvocation where
  argv : List String
  timeoutSeconds : Option Nat
deriving DecidableEq

/-- The invocation built by `executeGitCommand` (main.go:185-188): argv
`git -C <repoPath> <args...>`, bounded by a 10-second context timeout. -/
def checkInvocation (repoPath : String) (args : List String) : GitInvocation :=
  { argv := "git" :: "-C" :: repoPath :: args, timeoutSeconds := some 10 }

/-- The invocation built by `gitPull` (main.go:166): argv
`git -C <repoPath> pull`, run with no timeout at all. -/
def pullInvocation (repoPath : String) : GitInvocation :=
  { argv := ["git", "-C", repoPath, "pull"], timeoutSeconds := none }

/-- Abstract outcome of the external git subprocesses during one run:
`run inv = some out` means the invocation exited successfully with standard
output `out`; `none` means any failure (non-zero exit, timeout, spawn
failure). -/
structure GitEnv where
  run : GitInvocation → Option String

/-! ### Go's strings.TrimSpace

`strings.TrimSpace` removes leading AND trailing Unicode whitespace.  We model
the Latin-1 fragment of `unicode.IsSpace` (enough for git output): space, tab,
newline, vertical tab, form feed, carriage return, NEL, NBSP. -/

def goIsSpace (c : Char) : Bool :=
  c = ' ' || c = '\t' || c = '\n' || c = '\r' ||
  c = Char.ofNat 11 || c = Char.ofNat 12 || c = Char.ofNat 0x85 || c = Char.ofNat 0xA0

def trimSpaceList (l : List Char) : List Char :=
  ((l.dropWhile goIsSpace).reverse.dropWhile goIsSpace).reverse

/-- Model of Go's `strings.TrimSpace`. -/
def trimSpace (s : String) : String :=
  String.mk (trimSpaceList s.toList)

/-- main.go:184-198.  On success, the trimmed standard output; on any failure
(non-zero exit, timeout, spawn failure) the error is logged and the empty
string is returned. -/
def executeGitCommand (env : GitEnv) (repoPath : String) (args : List String) : String :=
  match env.run (checkInvocation repoPath args) with
  | some out => trimSpace out
  | none => ""

/-- main.go:163-182.  `gitPull` reports whether `cmd.Run()` succeeded. -/
def gitPull (env : GitEnv) (repoPath : String) : Bool :=
  (env.run (pullInvocation repoPath)).isSome

/-! ## The four policy checks (main.go:144-161) -/

/-- main.go:144-146: true when the current branch differs from the target. -/
def notOnBranch (env : GitEnv) (repoPath branchName : String) : Bool :=
  decide (executeGitCommand env repoPath ["rev-parse", "--abbrev-ref", "HEAD"] ≠ branchName)

/-- main.go:148-150: true when `git status --porcelain` printed anything. -/
def hasUncommittedChanges (env : GitEnv) (repoPath branchName : String) : Bool :=
  decide (executeGitCommand env repoPath ["status", "--porcelain"] ≠ "")

/-- main.go:152-154: true when `git cherry -v` printed anything. -/
def hasUnpushedCommits (env : GitEnv) (repoPath branchName : String) : Bool :=
  decide (executeGitCommand env repoPath ["cherry", "-v"] ≠ "")

/-- Go's `strings.Contains sub`: does `sub` occur as a contiguous substring? -/
def containsAux (sub : List Char) : List Char → Bool
  | [] => sub.isEmpty
  | c :: rest => sub.isPrefixOf (c :: rest) || containsAux sub rest

def goContains (s sub : String) : Bool :=
  containsAux sub.toList s.toList

/-- main.go:156-161: returns true when the fetch output is empty, otherwise
true when `git status -uno` reports the branch up to date. -/
def noRemoteUpdates (env : GitEnv) (repoPath branchName : String) : Bool :=
  if executeGitCommand env repoPath ["fetch"] = "" then true
  else goContains (executeGitCommand env repoPath ["status", "-uno"]) "Your branch is up to date"

/-! ## Per-repository processing (main.go:105-142) -/

/-- The message tags of main.go:20-25. -/
inductive Msg where
  | notOnBranchMsg
  | hasUncommittedChangesMsg
  | hasUnpushedCommitsMsg
  | noRemoteUpdatesMsg
deriving DecidableEq

/-- The five category lists of main.go:32-38. -/
structure repoStatusStruct where
  notOnBranch : List String
  uncommittedChanges : List String
  unpushedCommits : List String
  updatedRepos : List String
  noUpdates : List String
deriving DecidableEq

def emptyStatus : repoStatusStruct :=
  { notOnBranch := [], uncommittedChanges := [], unpushedCommits := [],
    updatedRepos := [], noUpdates := [] }

/-- The switch of main.go:122-131: append the project name to the category
list selected by the message tag. -/
def appendCategory (st : repoStatusStruct) (m : Msg) (name : String) : repoStatusStruct :=
  match m with
  | Msg.notOnBranchMsg => { st with notOnBranch := st.notOnBranch ++ [name] }
  | Msg.hasUncommittedChangesMsg =>
      { st with uncommittedChanges := st.uncommittedChanges ++ [name] }
  | Msg.hasUnpushedCommitsMsg => { st with unpushedCommits := st.unpushedCommits ++ [name] }
  | Msg.noRemoteUpdatesMsg => { st with noUpdates := st.noUpdates ++ [name] }

/-- `filepath.Base`: the final component of a slash-separated path, i.e. the
characters after the last separator (trailing separators are not modelled;
the tool's repo paths do not end in one). -/
def baseName (p : String) : String :=
  String.mk ((p.toList.reverse.takeWhile fun c => !(c = '/')).reverse)

/-- The ordered check list built in main.go:107-115. -/
def checks : List ((GitEnv → String → String → Bool) × Msg) :=
  [(notOnBranch, Msg.notOnBranchMsg),
   (hasUncommittedChanges, Msg.hasUncommittedChangesMsg),
   (hasUnpushedCommits, Msg.hasUnpushedCommitsMsg),
   (noRemoteUpdates, Msg.noRemoteUpdatesMsg)]

/-- Observable events of one repository's evaluation, in execution order:
each check evaluation with its result, and the pull attempt (which main.go:137
makes only when `allChecksPassed`, thanks to `&&` short-circuiting). -/
inductive GitEvent where
  | checkEvent (m : Msg) (failed : Bool)
  | pullEvent (ok : Bool)
deriving DecidableEq

/-- main.go:105-142: run the four checks in order, appending the project name
to the matching category of each failed check; attempt the pull only when all
checks passed, and record the name as updated only when the pull succeeded.
Returns the updated status together with the event trace. -/
def processRepository (env : GitEnv) (repoPath branchName : String)
    (st : repoStatusStruct) : repoStatusStruct × List GitEvent :=
  let projectName := baseName repoPath
  let r := checks.foldl
    (fun (acc : repoStatusStruct × Bool × List GitEvent) check =>
      let failed := check.1 env repoPath branchName
      ((if failed then appendCategory acc.1 check.2 projectName else acc.1),
       acc.2.1 && !failed,
       acc.2.2 ++ [GitEvent.checkEvent check.2 failed]))
    (st, true, [])
  if r.2.1 then
    let ok := gitPull env repoPath
    ((if ok then { r.1 with updatedRepos := r.1.updatedRepos ++ [projectName] } else r.1),
     r.2.2 ++ [GitEvent.pullEvent ok])
  else (r.1, r.2.2)

/-- One discovered repository: its path and the behaviour of git there. -/
structure Repo where
  path : String
  env : GitEnv

/-- The aggregate of a whole run: every worker's appends are serialized by the
mutex of main.go:72/121/138, so the final status is the fold of
`processRepository` over the discovered repositories in some order. -/
def runAll (branchName : String) (repos : List Repo) : repoStatusStruct :=
  repos.foldl (fun st r => (processRepository r.env r.path branchName st).1) emptyStatus

/-- How many times `n` occurs across all five category lists. -/
def nameCount (st : repoStatusStruct) (n : String) : Nat :=
  st.notOnBranch.count n + st.uncommittedChanges.count n + st.unpushedCommits.count n
    + st.noUpdates.count n + st.updatedRepos.count n

/-! ## Repository discovery (main.go:74-94)

`filepath.Walk` visits every entry below the start directory.  The callback:
on a traversal error it returns that error, which makes `filepath.Walk` abort
the remaining walk entirely; on a directory named `.git` it schedules the
parent directory as a repository and returns `filepath.SkipDir`, which prunes
only the `.git` directory itself; otherwise the walk descends normally. -/

/-- A directory tree as seen by the walk.  `errEntry` is an entry whose visit
reports a traversal error (unreadable entry, broken symlink).  Children are
listed in the order `filepath.Walk` visits them (lexical order of names). -/
inductive FsNode where
  | file (name : String)
  | errEntry (name : String)
  | dir (name : String) (children : List FsNode)

/-- Paths are lists of path components, root first. -/
abbrev FsPath := List String

mutual
/-- The walk of main.go:74-94 on one node whose parent path is `pp`.
Returns the repository paths scheduled, and whether the walk aborted
(the callback returned a non-nil, non-SkipDir error). -/
def walkGo (pp : FsPath) : FsNode → List FsPath × Bool
  | FsNode.errEntry _ => ([], true)
  | FsNode.file _ => ([], false)
  | FsNode.dir n cs =>
      if n = ".git" then ([pp], false)
      else walkGoList (pp ++ [n]) cs

/-- The walk over a directory's children, left to right; an abort in one child
skips every later sibling, matching `filepath.Walk` error propagation. -/
def walkGoList (pp : FsPath) : List FsNode → List FsPath × Bool
  | [] => ([], false)
  | c :: cs =>
      let r := walkGo pp c
      if r.2 then (r.1, true)
      else
        let r2 := walkGoList pp cs
        (r.1 ++ r2.1, r2.2)
end

mutual
/-- No entry in the tree reports a traversal error. -/
def errFree : FsNode → Bool
  | FsNode.errEntry _ => false
  | FsNode.file _ => true
  | FsNode.dir _ cs => errFreeList cs

def errFreeList : List FsNode → Bool
  | [] => true
  | c :: cs => errFree c && errFreeList cs
end

/-- `RepoRoot pp t q` holds when the walk of `t` (whose parent path is `pp`)
can reach a directory named `.git` whose parent path is `q`, descending only
through directories not named `.git`.  Note the `deeper` rule places no
condition on the other children: descent continues below a directory even
when a sibling `.git` marker makes that directory a repository root. -/
inductive RepoRoot : FsPath → FsNode → FsPath → Prop where
  | marker : ∀ (pp : FsPath) (cs : List FsNode), RepoRoot pp (FsNode.dir ".git" cs) pp
  | deeper : ∀ (pp : FsPath) (n : String) (cs : List FsNode) (c : FsNode) (q : FsPath),
      n ≠ ".git" → c ∈ cs → RepoRoot (pp ++ [n]) c q → RepoRoot pp (FsNode.dir n cs) q

/-! ## The bounded worker pool (main.go:61-102)

Discovery runs on the main goroutine; every repository found does
`wg.Add(1); sem <- struct{}{}` (blocking while `Parallelism` slots are taken)
and spawns a worker that processes the repository and then releases its slot.
After the walk, `wg.Wait()` blocks until every worker is done, and only then
is the report printed.  We model this synchronization discipline as a step
relation on an abstract pool state. -/

structure PoolState where
  toDiscover : Nat
  running : Nat
  finished : Nat
  printed : Bool
deriving DecidableEq

/-- Initial state of a run that will discover `n` repositories. -/
def poolInit (n : Nat) : PoolState :=
  { toDiscover := n, running := 0, finished := 0, printed := false }

/-- The transitions the synchronization of main.go:61-102 allows, with
parallelism limit `K`:
`acquire` — the walk finds a repository and acquires a semaphore slot, which
requires a free slot (`running < K`);
`finish` — a worker completes `processRepository` and releases its slot;
`report` — `wg.Wait()` returns (all discovered work finished) and
`printResults` runs. -/
inductive PoolStep (K : Nat) : PoolState → PoolState → Prop where
  | acquire : ∀ s : PoolState, 0 < s.toDiscover → s.running < K → s.printed = false →
      PoolStep K s { toDiscover := s.toDiscover - 1, running := s.running + 1,
                     finished := s.finished, printed := false }
  | finish : ∀ s : PoolState, 0 < s.running → s.printed = false →
      PoolStep K s { s with running := s.running - 1, finished := s.finished + 1 }
  | report : ∀ s : PoolState, s.toDiscover = 0 → s.running = 0 → s.printed = false →
      PoolStep K s { s with printed := true }

/-- States reachable in a run with parallelism `K` over `n` repositories. -/
inductive PoolReach (K n : Nat) : PoolState → Prop where
  | init : PoolReach K n (poolInit n)
  | step : ∀ s t : PoolState, PoolReach K n s → PoolStep K s t → PoolReach K n t

/-! ## Concrete test environments and trees -/

/-- An environment in which every subprocess invocation fails (non-zero exit,
timeout or spawn failure): `executeGitCommand` returns `""` everywhere. -/
def envNone : GitEnv :=
  { run := fun _ => none }

/-- An environment for repository `rp` in which all four checks pass: the
repository is on `master`, the working tree is clean, there are no unpushed
commits, the fetch produces (non-empty) output and the status report says the
branch is behind its upstream.  The pull succeeds iff `pullOk`. -/
def envPass (rp : String) (pullOk : Bool) : GitEnv :=
  { run := fun inv =>
      if inv = checkInvocation rp ["rev-parse", "--abbrev-ref", "HEAD"] then some "master"
      else if inv = checkInvocation rp ["status", "--porcelain"] then some ""
      else if inv = checkInvocation rp ["cherry", "-v"] then some ""
      else if inv = checkInvocation rp ["fetch"] then some "From origin"
      else if inv = checkInvocation rp ["status", "-uno"] then
        some "Your branch is behind origin by 1 commit"
      else if inv = pullInvocation rp then (if pullOk then some "Updating abc..def" else none)
      else none }

/-- An environment whose every invocation succeeds with output `" x"` (a
leading space before the payload). -/
def envLeadingSpace : GitEnv :=
  { run := fun _ => some " x" }

/-- Modelled from the claim's words for comparison with the source behaviour:
an executor that trims ONLY trailing whitespace and leaves the rest of the
output unchanged. -/
def trimTrailingOnly (s : String) : String :=
  String.mk ((s.toList.reverse.dropWhile goIsSpace).reverse)

/-- A repository `root/repo` with another repository `root/repo/sub` nested
strictly inside it. -/
def nestedTree : FsNode :=
  FsNode.dir "root"
    [FsNode.dir "repo" [FsNode.dir ".git" [], FsNode.dir "sub" [FsNode.dir ".git" []]]]

/-- A root whose first entry reports a traversal error and whose second entry
is a repository. -/
def errTree : FsNode :=
  FsNode.dir "root" [FsNode.errEntry "bad", FsNode.dir "r2" [FsNode.dir ".git" []]]

/-- `errTree` with the erroring entry removed. -/
def errTreeClean : FsNode :=
  FsNode.dir "root" [FsNode.dir "r2" [FsNode.dir ".git" []]]

/-! ## Helper lemmas -/

/-- Closed form of one repository's evaluation: each category list grows by
the project name exactly when the matching check fails; the updated list grows
exactly when every check passed and the pull succeeded; the event trace lists
the four checks in their fixed order and ends with the pull attempt exactly
when all checks passed. -/
theorem processRepository_unfold (env : GitEnv) (rp b : String) (st : repoStatusStruct) :
    processRepository env rp b st =
      ({ notOnBranch := st.notOnBranch ++ (if notOnBranch env rp b then [baseName rp] else []),
         uncommittedChanges := st.uncommittedChanges ++
           (if hasUncommittedChanges env rp b then [baseName rp] else []),
         unpushedCommits := st.unpushedCommits ++
           (if hasUnpushedCommits env rp b then [baseName rp] else []),
         noUpdates := st.noUpdates ++ (if noRemoteUpdates env rp b then [baseName rp] else []),
         updatedRepos := st.updatedRepos ++
           (if (!notOnBranch env rp b && !hasUncommittedChanges env rp b &&
                !hasUnpushedCommits env rp b && !noRemoteUpdates env rp b) && gitPull env rp
            then [baseName rp] else []) },
       [GitEvent.checkEvent Msg.notOnBranchMsg (notOnBranch env rp b),
        GitEvent.checkEvent Msg.hasUncommittedChangesMsg (hasUncommittedChanges env rp b),
        GitEvent.checkEvent Msg.hasUnpushedCommitsMsg (hasUnpushedCommits env rp b),
        GitEvent.checkEvent Msg.noRemoteUpdatesMsg (noRemoteUpdates env rp b)] ++
       (if !notOnBranch env rp b && !hasUncommittedChanges env rp b &&
           !hasUnpushedCommits env rp b && !noRemoteUpdates env rp b
        then [GitEvent.pullEvent (gitPull env rp)] else [])) := by
  cases h1 : notOnBranch env rp b <;>
    cases h2 : hasUncommittedChanges env rp b <;>
      cases h3 : hasUnpushedCommits env rp b <;>
        cases h4 : noRemoteUpdates env rp b <;>
          cases h5 : gitPull env rp <;>
            simp [processRepository, checks, appendCategory, h1, h2, h3, h4, h5]

/-- Invariant of the pool: the running count never exceeds the limit, the
work is conserved, and the report is printed only with all work finished. -/
theorem poolReach_invariant (K n : Nat) (s : PoolState) (h : PoolReach K n s) :
    s.running ≤ K ∧ s.toDiscover + s.running + s.finished = n ∧
      (s.printed = true → s.toDiscover = 0 ∧ s.running = 0 ∧ s.finished = n) := by
  induction h with
  | init => simp [poolInit]
  | step s t _ hstep ih =>
      obtain ⟨ihK, ihSum, _⟩ := ih
      cases hstep with
      | acquire hd hr hp => refine ⟨?_, ?_, ?_⟩ <;> simp_all <;> omega
      | finish hr hp => refine ⟨?_, ?_, ?_⟩ <;> simp_all <;> omega
      | report hd hr hp => refine ⟨?_, ?_, ?_⟩ <;> simp_all

mutual
/-- An error-free tree never makes the walk abort. -/
theorem walkGo_no_abort (t : FsNode) (h : errFree t = true) (pp : FsPath) :
    (walkGo pp t).2 = false := by
  cases t with
  | file n => simp [walkGo]
  | errEntry n => simp [errFree] at h
  | dir n cs =>
      by_cases hn : n = ".git"
      · simp [walkGo, hn]
      · simp only [walkGo, if_neg hn]
        exact walkGoList_no_abort cs (by simpa [errFree] using h) (pp ++ [n])

theorem walkGoList_no_abort (cs : List FsNode) (h : errFreeList cs = true) (pp : FsPath) :
    (walkGoList pp cs).2 = false := by
  cases cs with
  | nil => simp [walkGoList]
  | cons c cs' =>
      have hc : errFree c = true ∧ errFreeList cs' = true := by
        simpa [errFreeList, Bool.and_eq_true] using h
      simp [walkGoList, walkGo_no_abort c hc.1 pp, walkGoList_no_abort cs' hc.2 pp]
end

mutual
/-- The walk of an error-free tree schedules exactly the `RepoRoot` paths. -/
theorem walkGo_mem (t : FsNode) (h : errFree t = true) (pp q : FsPath) :
    q ∈ (walkGo pp t).1 ↔ RepoRoot pp t q := by
  cases t with
  | file n =>
      simp only [walkGo, List.not_mem_nil, false_iff]
      intro hr; cases hr
  | errEntry n => simp [errFree] at h
  | dir n cs =>
      by_cases hn : n = ".git"
      · subst hn
        rw [show walkGo pp (FsNode.dir ".git" cs) = ([pp], false) from rfl]
        simp only [List.mem_singleton]
        constructor
        · intro hq; subst hq; exact RepoRoot.marker _ cs
        · intro hr
          cases hr with
          | marker => rfl
          | deeper _ _ _ _ _ hne _ _ => exact absurd rfl hne
      · simp only [walkGo, if_neg hn]
        rw [walkGoList_mem cs (by simpa [errFree] using h) (pp ++ [n]) q]
        constructor
        · rintro ⟨c, hc, hr⟩
          exact RepoRoot.deeper pp n cs c q hn hc hr
        · intro hr
          cases hr with
          | marker => exact absurd rfl hn
          | deeper _ _ _ c _ _ hc hr => exact ⟨c, hc, hr⟩

theorem walkGoList_mem (cs : List FsNode) (h : errFreeList cs = true) (pp q : FsPath) :
    q ∈ (walkGoList pp cs).1 ↔ ∃ c ∈ cs, RepoRoot pp c q := by
  cases cs with
  | nil => simp [walkGoList]
  | cons c cs' =>
      have hc : errFree c = true ∧ errFreeList cs' = true := by
        simpa [errFreeList, Bool.and_eq_true] using h
      have hstep : walkGoList pp (c :: cs') =
          ((walkGo pp c).1 ++ (walkGoList pp cs').1, (walkGoList pp cs').2) := by
        simp [walkGoList, walkGo_no_abort c hc.1 pp]
      rw [hstep]
      simp only [List.mem_append]
      rw [walkGo_mem c hc.1 pp q, walkGoList_mem cs' hc.2 pp q]
      constructor
      · rintro (hr | ⟨c', hc', hr⟩)
        · exact ⟨c, List.mem_cons_self c cs', hr⟩
        · exact ⟨c', List.mem_cons_of_mem c hc', hr⟩
      · rintro ⟨c', hc', hr⟩
        rcases List.mem_cons.mp hc' with hrfl | hmem
        · subst hrfl; exact Or.inl hr
        · exact Or.inr ⟨c', hmem, hr⟩
end

/-- `trimSpaceList` removes a run of whitespace from each end and nothing
else: the input splits as whitespace ++ result ++ whitespace. -/
theorem trimSpaceList_decomp (l : List Char) :
    ∃ pre suf, l = pre ++ trimSpaceList l ++ suf ∧
      (∀ c ∈ pre, goIsSpace c = true) ∧ (∀ c ∈ suf, goIsSpace c = true) := by
  refine ⟨l.takeWhile goIsSpace,
    (((l.dropWhile goIsSpace).reverse.takeWhile goIsSpace)).reverse, ?_, ?_, ?_⟩
  · unfold trimSpaceList
    conv_lhs => rw [← List.takeWhile_append_dropWhile (p := goIsSpace) (l := l)]
    rw [List.append_assoc]
    congr 1
    rw [← List.reverse_append, List.takeWhile_append_dropWhile, List.reverse_reverse]
  · intro c hc
    exact List.mem_takeWhile_imp hc
  · intro c hc
    exact List.mem_takeWhile_imp (List.mem_reverse.mp hc)

/-- The first element surviving `dropWhile p` does not satisfy `p`. -/
theorem dropWhile_head_not (p : Char → Bool) :
    ∀ (l : List Char) (c : Char), (l.dropWhile p).head? = some c → p c = false := by
  intro l
  induction l with
  | nil => intro c hc; simp [List.dropWhile] at hc
  | cons x xs ih =>
      intro c hc
      by_cases hx : p x = true
      · rw [List.dropWhile_cons_of_pos hx] at hc
        exact ih c hc
      · rw [List.dropWhile_cons_of_neg hx] at hc
        simp at hc
        subst hc
        simpa using hx

/-- `dropWhile` removes only a prefix, so a non-empty result keeps the last
element of the input. -/
theorem dropWhile_getLast_eq (p : Char → Bool) :
    ∀ l : List Char, l.dropWhile p ≠ [] → (l.dropWhile p).getLast? = l.getLast? := by
  intro l
  induction l with
  | nil => intro h; simp [List.dropWhile] at h
  | cons x xs ih =>
      intro h
      by_cases hx : p x = true
      · rw [List.dropWhile_cons_of_pos hx] at h ⊢
        have hxs : xs ≠ [] := by
          intro hnil; subst hnil; simp [List.dropWhile] at h
        rw [ih h]
        cases xs with
        | nil => exact absurd rfl hxs
        | cons y ys => rw [List.getLast?_cons_cons]
      · rw [List.dropWhile_cons_of_neg hx]

/-- The trimmed list never ends in a whitespace character. -/
theorem trimSpaceList_getLast_not_space (l : List Char) (c : Char)
    (h : (trimSpaceList l).getLast? = some c) : goIsSpace c = false := by
  unfold trimSpaceList at h
  rw [List.getLast?_reverse] at h
  exact dropWhile_head_not goIsSpace _ c h

/-- The trimmed list never starts with a whitespace character. -/
theorem trimSpaceList_head_not_space (l : List Char) (c : Char)
    (h : (trimSpaceList l).head? = some c) : goIsSpace c = false := by
  unfold trimSpaceList at h
  rw [List.head?_reverse] at h
  have hne : (l.dropWhile goIsSpace).reverse.dropWhile goIsSpace ≠ [] := by
    intro hnil; rw [hnil] at h; simp at h
  rw [dropWhile_getLast_eq goIsSpace _ hne, List.getLast?_reverse] at h
  exact dropWhile_head_not goIsSpace _ c h

/-- C6 counterexample: when the fetch inspection fails and yields the empty
result, the no-remote-updates check evaluates to TRUE, not false as claimed. -/
theorem gitu_empty_result_counterexample :
    executeGitCommand envNone "r" ["fetch"] = "" ∧
    noRemoteUpdates envNone "r" "master" = true := ⟨rfl, rfl⟩

/-- C6 amended: an empty inspection result degrades uncommitted-changes and
unpushed-commits to false, but classifies the repository as not-on-branch
(for a non-empty target) and makes no-remote-updates true; evaluation always
continues to the next check. -/
theorem gitu_empty_result_amended (env : GitEnv) (rp b : String) :
    (env.run (checkInvocation rp ["status", "--porcelain"]) = none →
       hasUncommittedChanges env rp b = false) ∧
    (env.run (checkInvocation rp ["cherry", "-v"]) = none →
       hasUnpushedCommits env rp b = false) ∧
    (env.run (checkInvocation rp ["fetch"]) = none →
       noRemoteUpdates env rp b = true) ∧
    (env.run (checkInvocation rp ["rev-parse", "--abbrev-ref", "HEAD"]) = none → b ≠ "" →
       notOnBranch env rp b = true) := by
  refine ⟨fun h => ?_, fun h => ?_, fun h => ?_, fun h hb => ?_⟩
  · simp [hasUncommittedChanges, executeGitCommand, h]
  · simp [hasUnpushedCommits, executeGitCommand, h]
  · simp [noRemoteUpdates, executeGitCommand, h]
  · simp [notOnBranch, executeGitCommand, h]
    exact fun hc => hb hc.symm

/-- Witness for C6 amended, in the environment where every subprocess fails. -/
theorem gitu_empty_result_amended_witness :
    hasUncommittedChanges envNone "r" "master" = false ∧
    hasUnpushedCommits envNone "r" "master" = false ∧
    noRemoteUpdates envNone "r" "master" = true ∧
    notOnBranch envNone "r" "master" = true :=
  ⟨(gitu_empty_result_amended envNone "r" "master").1 rfl,
   (gitu_empty_result_amended envNone "r" "master").2.1 rfl,
   (gitu_empty_result_amended envNone "r" "master").2.2.1 rfl,
   (gitu_empty_result_amended envNone "r" "master").2.2.2 rfl (by decide)⟩

/-- C7 counterexample: on an output with a leading space the executor does
not return the output with only trailing whitespace trimmed — it also strips
the leading space. -/
theorem gitu_trim_counterexample :
    envLeadingSpace.run (checkInvocation "r" []) = some " x" ∧
    trimTrailingOnly " x" = " x" ∧
    executeGitCommand envLeadingSpace "r" [] = "x" ∧
    ("x" : String) ≠ " x" := ⟨rfl, rfl, rfl, by decide⟩

/-- C7 amended: on success the executor returns the output with whitespace
trimmed from BOTH ends — the successful output splits as leading whitespace ++
returned text ++ trailing whitespace, and the returned text itself starts and
ends with a non-whitespace character (so the trimming is maximal: nothing of
the flanks is kept); on any failure it returns the empty string. -/
theorem gitu_trim_amended (env : GitEnv) (rp : String) (args : List String) :
    (∀ s, env.run (checkInvocation rp args) = some s →
       (∃ pre suf, s.toList = pre ++ (executeGitCommand env rp args).toList ++ suf ∧
         (∀ c ∈ pre, goIsSpace c = true) ∧ (∀ c ∈ suf, goIsSpace c = true)) ∧
       (∀ c, (executeGitCommand env rp args).toList.head? = some c → goIsSpace c = false) ∧
       (∀ c, (executeGitCommand env rp args).toList.getLast? = some c →
          goIsSpace c = false)) ∧
    (env.run (checkInvocation rp args) = none → executeGitCommand env rp args = "") := by
  constructor
  · intro s hs
    have hlist : (executeGitCommand env rp args).toList = trimSpaceList s.toList := by
      simp [executeGitCommand, hs, trimSpace]
    refine ⟨?_, ?_, ?_⟩
    · obtain ⟨pre, suf, hsplit, hpre, hsuf⟩ := trimSpaceList_decomp s.toList
      refine ⟨pre, suf, ?_, hpre, hsuf⟩
      rw [hlist]
      exact hsplit
    · intro c hc
      rw [hlist] at hc
      exact trimSpaceList_head_not_space s.toList c hc
    · intro c hc
      rw [hlist] at hc
      exact trimSpaceList_getLast_not_space s.toList c hc
  · intro h
    simp [executeGitCommand, h]

/-- Witness for C7 amended at a concrete successful invocation with a leading
space in the raw output. -/
theorem gitu_trim_amended_witness :
    (∃ pre suf, (" x".toList = pre ++ (executeGitCommand envLeadingSpace "r" []).toList ++ suf ∧
       (∀ c ∈ pre, goIsSpace c = true) ∧ (∀ c ∈ suf, goIsSpace c = true))) ∧
    (∀ c, (executeGitCommand envLeadingSpace "r" []).toList.head? = some c →
       goIsSpace c = false) ∧
    (∀ c, (executeGitCommand envLeadingSpace "r" []).toList.getLast? = some c →
       goIsSpace c = false) :=
  (gitu_trim_amended envLeadingSpace "r" []).1 " x" rfl

/-- C4 counterexample: discovery schedules `root/repo/sub`, a repository
nested strictly inside the discovered repository `root/repo` — the subtree
below a repository root is NOT pruned. -/
theorem gitu_nested_repo_counterexample :
    (walkGo [] nestedTree).1 = [["root", "repo"], ["root", "repo", "sub"]] ∧
    (["root", "repo", "sub"] : FsPath) = ["root", "repo"] ++ ["sub"] := ⟨rfl, rfl⟩

/-- C4 amended: only the `.git` marker directory itself is pruned (its
contents are never examined), and the error-free walk schedules exactly the
`RepoRoot` paths — a relation whose descent rule keeps descending below a
repository root into its other children, so nested repositories are also
scheduled. -/
theorem gitu_walk_membership_amended (pp q : FsPath) (t : FsNode) (h : errFree t = true) :
    (q ∈ (walkGo pp t).1 ↔ RepoRoot pp t q) ∧
    (∀ cs : List FsNode, walkGo pp (FsNode.dir ".git" cs) = ([pp], false)) :=
  ⟨walkGo_mem t h pp q, fun _ => rfl⟩

/-- Witness for C4 amended on the concrete nested tree. -/
theorem gitu_walk_membership_amended_witness :
    ((["root", "repo", "sub"] : FsPath) ∈ (walkGo [] nestedTree).1 ↔
      RepoRoot [] nestedTree ["root", "repo", "sub"]) ∧
    (∀ cs : List FsNode, walkGo [] (FsNode.dir ".git" cs) = ([[]], false)) :=
  gitu_walk_membership_amended [] ["root", "repo", "sub"] nestedTree rfl

/-- C5 counterexample: with the erroring entry present the walk aborts and
the repository `root/r2` is never discovered; removing the erroring entry,
the very same repository is discovered — so a traversal error does not merely
skip the failing entry. -/
theorem gitu_walk_error_counterexample :
    walkGo [] errTree = ([], true) ∧
    walkGo [] errTreeClean = ([["root", "r2"]], false) := ⟨rfl, rfl⟩

/-- C5 amended: a traversal error on an entry aborts the remainder of the
walk — the erroring entry contributes nothing, and once a child aborts, none
of its later siblings is visited (only the repositories already found are
kept); the error is logged after the walk instead of stopping the program. -/
theorem gitu_walk_error_aborts_amended (pp : FsPath) (c : FsNode) (cs : List FsNode)
    (h : (walkGo pp c).2 = true) :
    (∀ nm, walkGo pp (FsNode.errEntry nm) = ([], true)) ∧
    walkGoList pp (c :: cs) = ((walkGo pp c).1, true) := by
  refine ⟨fun _ => rfl, ?_⟩
  simp [walkGoList, h]

/-- Witness for C5 amended: the erroring entry of `errTree` hides its
repository sibling. -/
theorem gitu_walk_error_aborts_amended_witness :
    (∀ nm, walkGo ["root"] (FsNode.errEntry nm) = ([], true)) ∧
    walkGoList ["root"] [FsNode.errEntry "bad", FsNode.dir "r2" [FsNode.dir ".git" []]] =
      ((walkGo ["root"] (FsNode.errEntry "bad")).1, true) :=
  gitu_walk_error_aborts_amended ["root"] (FsNode.errEntry "bad")
    [FsNode.dir "r2" [FsNode.dir ".git" []]] rfl

/-- C2 counterexample: a repository that fails no check but whose pull fails
appears in NO category at all — the code has no update-failed category, so it
is not in exactly one of the update outcome categories. -/
theorem gitu_update_outcome_counterexample :
    notOnBranch (envPass "r" false) "r" "master" = false ∧
    hasUncommittedChanges (envPass "r" false) "r" "master" = false ∧
    hasUnpushedCommits (envPass "r" false) "r" "master" = false ∧
    noRemoteUpdates (envPass "r" false) "r" "master" = false ∧
    gitPull (envPass "r" false) "r" = false ∧
    (processRepository (envPass "r" false) "r" "master" emptyStatus).1 = emptyStatus :=
  ⟨rfl, rfl, rfl, rfl, rfl, rfl⟩

/-- C2 amended: for a name not already present, membership in each failure
category is exactly that check's failure, membership in updated is exactly
all-checks-passed plus a successful pull, and a repository that passed every
check but whose pull failed appears in no category at all. -/
theorem gitu_category_membership_amended (env : GitEnv) (rp b : String)
    (st : repoStatusStruct) (hfresh : nameCount st (baseName rp) = 0) :
    (baseName rp ∈ (processRepository env rp b st).1.notOnBranch ↔ notOnBranch env rp b = true) ∧
    (baseName rp ∈ (processRepository env rp b st).1.uncommittedChanges ↔
       hasUncommittedChanges env rp b = true) ∧
    (baseName rp ∈ (processRepository env rp b st).1.unpushedCommits ↔
       hasUnpushedCommits env rp b = true) ∧
    (baseName rp ∈ (processRepository env rp b st).1.noUpdates ↔
       noRemoteUpdates env rp b = true) ∧
    (baseName rp ∈ (processRepository env rp b st).1.updatedRepos ↔
       (notOnBranch env rp b = false ∧ hasUncommittedChanges env rp b = false ∧
        hasUnpushedCommits env rp b = false ∧ noRemoteUpdates env rp b = false ∧
        gitPull env rp = true)) ∧
    ((notOnBranch env rp b = false ∧ hasUncommittedChanges env rp b = false ∧
      hasUnpushedCommits env rp b = false ∧ noRemoteUpdates env rp b = false) →
      gitPull env rp = false → nameCount (processRepository env rp b st).1 (baseName rp) = 0) := by
  have hcounts : st.notOnBranch.count (baseName rp) = 0 ∧
      st.uncommittedChanges.count (baseName rp) = 0 ∧
      st.unpushedCommits.count (baseName rp) = 0 ∧
      st.noUpdates.count (baseName rp) = 0 ∧
      st.updatedRepos.count (baseName rp) = 0 := by
    simp only [nameCount] at hfresh
    omega
  have hn1 := List.count_eq_zero.mp hcounts.1
  have hn2 := List.count_eq_zero.mp hcounts.2.1
  have hn3 := List.count_eq_zero.mp hcounts.2.2.1
  have hn4 := List.count_eq_zero.mp hcounts.2.2.2.1
  have hn5 := List.count_eq_zero.mp hcounts.2.2.2.2
  rw [processRepository_unfold]
  cases e1 : notOnBranch env rp b <;>
    cases e2 : hasUncommittedChanges env rp b <;>
      cases e3 : hasUnpushedCommits env rp b <;>
        cases e4 : noRemoteUpdates env rp b <;>
          cases e5 : gitPull env rp <;>
            simp_all [nameCount, List.count_append]

/-- Witness for C2 amended: fresh name in the empty status, all checks pass,
pull succeeds. -/
theorem gitu_category_membership_amended_witness :
    nameCount emptyStatus (baseName "r") = 0 ∧
    (baseName "r" ∈
        (processRepository (envPass "r" true) "r" "master" emptyStatus).1.updatedRepos ↔
      (notOnBranch (envPass "r" true) "r" "master" = false ∧
       hasUncommittedChanges (envPass "r" true) "r" "master" = false ∧
       hasUnpushedCommits (envPass "r" true) "r" "master" = false ∧
       noRemoteUpdates (envPass "r" true) "r" "master" = false ∧
       gitPull (envPass "r" true) "r" = true)) :=
  ⟨rfl,
   (gitu_category_membership_amended (envPass "r" true) "r" "master" emptyStatus rfl).2.2.2.2.1⟩

/-- C3 counterexample: a run over two repositories, one updated and one that
passes every check but whose pull fails; the failing one is represented zero
times across the five categories, not exactly once. -/
theorem gitu_exactly_once_counterexample :
    nameCount (runAll "master"
      [{ path := "ok", env := envPass "ok" true },
       { path := "r", env := envPass "r" false }]) "ok" = 1 ∧
    nameCount (runAll "master"
      [{ path := "ok", env := envPass "ok" true },
       { path := "r", env := envPass "r" false }]) "r" = 0 := ⟨rfl, rfl⟩

/-- C3 amended: each repository contributes one entry per failed check, plus
one entry in updated exactly when it failed none and the pull succeeded; in
particular a repository that passes all checks but whose pull fails
contributes no entry anywhere. -/
theorem gitu_name_count_amended (env : GitEnv) (rp b : String) (st : repoStatusStruct) :
    nameCount (processRepository env rp b st).1 (baseName rp) =
      nameCount st (baseName rp)
      + ((if notOnBranch env rp b then 1 else 0)
        + (if hasUncommittedChanges env rp b then 1 else 0)
        + (if hasUnpushedCommits env rp b then 1 else 0)
        + (if noRemoteUpdates env rp b then 1 else 0))
      + (if notOnBranch env rp b = false ∧ hasUncommittedChanges env rp b = false ∧
            hasUnpushedCommits env rp b = false ∧ noRemoteUpdates env rp b = false ∧
            gitPull env rp = true then 1 else 0) := by
  rw [processRepository_unfold]
  cases e1 : notOnBranch env rp b <;>
    cases e2 : hasUncommittedChanges env rp b <;>
      cases e3 : hasUnpushedCommits env rp b <;>
        cases e4 : noRemoteUpdates env rp b <;>
          cases e5 : gitPull env rp <;>
            simp [nameCount, List.count_append] <;> omega

/-- C1: all four policy checks are evaluated in the fixed order (branch,
uncommitted, unpushed, remote-updates) regardless of earlier failures, the
pull is attempted iff all four returned false, and the pull attempt strictly
follows all four checks. -/
theorem gitu_checks_exhaustive_ordered (env : GitEnv) (rp b : String) (st : repoStatusStruct) :
    (((processRepository env rp b st).2.filterMap fun e =>
        match e with
        | GitEvent.checkEvent m _ => some m
        | GitEvent.pullEvent _ => none) =
      [Msg.notOnBranchMsg, Msg.hasUncommittedChangesMsg,
       Msg.hasUnpushedCommitsMsg, Msg.noRemoteUpdatesMsg]) ∧
    ((∃ ok, GitEvent.pullEvent ok ∈ (processRepository env rp b st).2) ↔
       notOnBranch env rp b = false ∧ hasUncommittedChanges env rp b = false ∧
       hasUnpushedCommits env rp b = false ∧ noRemoteUpdates env rp b = false) ∧
    (∀ ok, GitEvent.pullEvent ok ∈ (processRepository env rp b st).2 →
       (processRepository env rp b st).2.getLast? = some (GitEvent.pullEvent ok)) := by
  rw [processRepository_unfold]
  cases h1 : notOnBranch env rp b <;>
    cases h2 : hasUncommittedChanges env rp b <;>
      cases h3 : hasUnpushedCommits env rp b <;>
        cases h4 : noRemoteUpdates env rp b <;>
          simp [List.getLast?_concat]

/-- C8: a repository lands in the not-on-branch category iff the
current-branch inspection differs from the (non-empty) target, and a failed
branch query (empty result) classifies it as not-on-branch. -/
theorem gitu_not_on_branch_iff (env : GitEnv) (rp b : String) (st : repoStatusStruct)
    (hb : b ≠ "") :
    ((processRepository env rp b st).1.notOnBranch = st.notOnBranch ++ [baseName rp] ↔
       executeGitCommand env rp ["rev-parse", "--abbrev-ref", "HEAD"] ≠ b) ∧
    ((processRepository env rp b st).1.notOnBranch = st.notOnBranch ↔
       executeGitCommand env rp ["rev-parse", "--abbrev-ref", "HEAD"] = b) ∧
    (env.run (checkInvocation rp ["rev-parse", "--abbrev-ref", "HEAD"]) = none →
       (processRepository env rp b st).1.notOnBranch = st.notOnBranch ++ [baseName rp]) := by
  rw [processRepository_unfold]
  by_cases h : executeGitCommand env rp ["rev-parse", "--abbrev-ref", "HEAD"] = b
  · refine ⟨?_, ?_, ?_⟩ <;> simp [notOnBranch, h]
    intro hrun
    exact absurd h (by simp [executeGitCommand, hrun]; exact fun hc => hb hc.symm)
  · refine ⟨?_, ?_, ?_⟩ <;> simp [notOnBranch, h]

/-- C9: with parallelism limit `K`, at most `K` evaluation units run at any
reachable instant, and the report is printed only after discovery has emitted
everything and all `n` units have finished. -/
theorem gitu_pool_bound_and_completion (K n : Nat) (s : PoolState) (h : PoolReach K n s) :
    s.running ≤ K ∧ (s.printed = true → s.toDiscover = 0 ∧ s.finished = n) := by
  obtain ⟨hK, _, hdone⟩ := poolReach_invariant K n s h
  exact ⟨hK, fun hp => ⟨(hdone hp).1, (hdone hp).2.2⟩⟩

/-- Witness for C9 at a concrete run: one repository, limit one, through
acquire, finish, report. -/
theorem gitu_pool_bound_and_completion_witness :
    ({ toDiscover := 0, running := 0, finished := 1, printed := true } : PoolState).running ≤ 1 ∧
    (({ toDiscover := 0, running := 0, finished := 1, printed := true } : PoolState).printed = true →
      ({ toDiscover := 0, running := 0, finished := 1, printed := true } : PoolState).toDiscover = 0 ∧
      ({ toDiscover := 0, running := 0, finished := 1, printed := true } : PoolState).finished = 1) :=
  gitu_pool_bound_and_completion 1 1 _
    (PoolReach.step _ _
      (PoolReach.step _ _
        (PoolReach.step _ _ PoolReach.init
          (PoolStep.acquire (poolInit 1) (by decide) (by decide) rfl))
        (PoolStep.finish _ (by decide) rfl))
      (PoolStep.report _ rfl rfl rfl))

/-- C10: the pull subprocess is launched with no timeout, every check
inspection is bounded by the fixed 10-second timeout, and the report can be
reached only with no unit still running — a unit stuck in a never-ending
pull therefore keeps the report unreachable. -/
theorem gitu_pull_no_timeout_stalls_report :
    (∀ rp, (pullInvocation rp).timeoutSeconds = none) ∧
    (∀ rp args, (checkInvocation rp args).timeoutSeconds = some 10) ∧
    (∀ K n s, PoolReach K n s → s.printed = true → s.running = 0) :=
  ⟨fun _ => rfl, fun _ _ => rfl,
   fun K n s h hp => ((poolReach_invariant K n s h).2.2 hp).2.1⟩

/-- Witness for C10 at concrete inputs. -/
theorem gitu_pull_no_timeout_stalls_report_witness :
    (pullInvocation "repo").timeoutSeconds = none ∧
    (checkInvocation "repo" ["fetch"]).timeoutSeconds = some 10 ∧
    ({ toDiscover := 0, running := 0, finished := 0, printed := true } : PoolState).running = 0 :=
  ⟨gitu_pull_no_timeout_stalls_report.1 "repo",
   gitu_pull_no_timeout_stalls_report.2.1 "repo" ["fetch"],
   gitu_pull_no_timeout_stalls_report.2.2 0 0 _
     (PoolReach.step _ _ PoolReach.init (PoolStep.report _ rfl rfl rfl)) rfl⟩

/-- Witness for C8 with a non-empty target branch and a failing branch
query. -/
theorem gitu_not_on_branch_iff_witness :
    ("master" : String) ≠ "" ∧
    ((processRepository envNone "r" "master" emptyStatus).1.notOnBranch =
        emptyStatus.notOnBranch ++ [baseName "r"] ↔
      executeGitCommand envNone "r" ["rev-parse", "--abbrev-ref", "HEAD"] ≠ "master") :=
  ⟨by decide, (gitu_not_on_branch_iff envNone "r" "master" emptyStatus (by decide)).1⟩

/-- Witness for C1 at a concrete repository where all checks pass. -/
theorem gitu_checks_exhaustive_ordered_witness :
    ((processRepository (envPass "r" true) "r" "master" emptyStatus).2.filterMap fun e =>
        match e with
        | GitEvent.checkEvent m _ => some m
        | GitEvent.pullEvent _ => none) =
      [Msg.notOnBranchMsg, Msg.hasUncommittedChangesMsg,
       Msg.hasUnpushedCommitsMsg, Msg.noRemoteUpdatesMsg] :=
  (gitu_checks_exhaustive_ordered (envPass "r" true) "r" "master" emptyStatus).1
